import Mathlib

/-!
Verification of the learning-progress tracker (`learning_api.py`).

The embedding below translates the record store and the endpoint handlers of
`learning_api.py` into Lean.  Machine floats are modelled as exact rationals
(`ℚ`); SQLite's dynamically typed cells are modelled by `SqlVal`, where
`SqlVal.text` stands for a stored value on which Python's `float(...)`
conversion raises (the defensive skip path of `get_learning_summary`).
`Option` fields of a patch model pydantic's "unset" fields
(`model_dump(exclude_unset=True)`).
-/

/-- A dynamically typed SQLite cell: either a numeric value or a non-numeric
blob on which `float(...)` raises. -/
inductive SqlVal where
  | real (q : ℚ)
  | text (s : String)
  deriving DecidableEq, Repr

/-- Python `float(x)` on a stored cell: succeeds on numeric cells, raises
(`none`) on non-numeric text, as caught by the `except (ValueError, TypeError)`
clause of `get_learning_summary`. -/
def pyFloat : SqlVal → Option ℚ
  | .real q => some q
  | .text _ => none

/-- One row of the `learning_updates` table. -/
structure Row where
  id : Nat
  topic : String
  hours_spent : SqlVal
  difficulty_level : SqlVal
  notes : String
  understanding_level : SqlVal
  questions : List String
  timestamp : String
  deriving DecidableEq, Repr

/-- The database plus the AUTOINCREMENT counter; rows are kept in insertion
(= rowid) order, which is the order a bare `SELECT * FROM learning_updates`
returns them in. -/
structure Store where
  rows : List Row
  nextId : Nat
  deriving DecidableEq, Repr

/-- The numeric value (JSON detail payloads elided to the detail string) of an
HTTP error response raised by a handler. -/
structure HErr where
  status : Nat
  detail : String
  deriving DecidableEq, Repr

instance {ε α : Type} [DecidableEq ε] [DecidableEq α] : DecidableEq (Except ε α) :=
  fun x y =>
    match x, y with
    | .ok a, .ok b =>
        if h : a = b then isTrue (by rw [h])
        else isFalse (fun hh => h (Except.ok.inj hh))
    | .error a, .error b =>
        if h : a = b then isTrue (by rw [h])
        else isFalse (fun hh => h (Except.error.inj hh))
    | .ok _, .error _ => isFalse (fun hh => Except.noConfusion hh)
    | .error _, .ok _ => isFalse (fun hh => Except.noConfusion hh)

/-- Round half to even, the rounding mode of Python's built-in `round`. -/
def roundHalfEven (q : ℚ) : ℤ :=
  let f := ⌊q⌋
  if q - f < 1/2 then f
  else if 1/2 < q - f then f + 1
  else if f % 2 = 0 then f else f + 1

/-- Python `round(q, 2)`. -/
def round2 (q : ℚ) : ℚ := (roundHalfEven (q * 100) : ℚ) / 100

/-- The values of the `LearningTopic` enum. -/
def recognizedTopics : List String :=
  ["Python", "FastAPI", "Database", "Docker", "AI", "Django"]

/-- The `LearningUpdate` request body (before validation). -/
structure LearningUpdate where
  topic : String
  hours_spent : ℚ
  difficulty_level : ℤ
  notes : String
  understanding_level : ℤ
  questions : List String
  deriving DecidableEq, Repr

/-- The pydantic field constraints of `LearningUpdate`:
topic in the enum, `hours_spent` in the open interval (0, 24),
`difficulty_level` in [1, 5], `notes` at least 10 characters,
`understanding_level` in [1, 10]. -/
def validUpdate (u : LearningUpdate) : Bool :=
  decide (u.topic ∈ recognizedTopics) &&
  decide (0 < u.hours_spent) && decide (u.hours_spent < 24) &&
  decide (1 ≤ u.difficulty_level) && decide (u.difficulty_level ≤ 5) &&
  decide (10 ≤ u.notes.length) &&
  decide (1 ≤ u.understanding_level) && decide (u.understanding_level ≤ 10)

/-- The row INSERTed by `add_learning_progress` for a validated update. -/
def mkRow (n : Nat) (u : LearningUpdate) (now : String) : Row :=
  ⟨n, u.topic, .real u.hours_spent, .real (u.difficulty_level : ℚ), u.notes,
    .real (u.understanding_level : ℚ), u.questions, now⟩

/-- `POST /add-progress`.  Request validation happens at the framework
boundary (pydantic), before the handler body runs: an invalid body is rejected
with a request-validation error and the handler, hence the INSERT, never
executes.  A valid body is inserted with the next AUTOINCREMENT id and the
current timestamp. -/
def add_learning_progress (st : Store) (u : LearningUpdate) (now : String) :
    Except HErr Store :=
  if validUpdate u then
    .ok ⟨st.rows ++ [mkRow st.nextId u now], st.nextId + 1⟩
  else .error ⟨422, "validation error"⟩

/-- The `LearningUpdatePatch` request body; `none` models a field absent from
the request (pydantic "unset"). -/
structure LearningUpdatePatch where
  topic : Option String
  hours_spent : Option ℚ
  difficulty_level : Option ℤ
  notes : Option String
  understanding_level : Option ℤ
  questions : Option (List String)
  deriving DecidableEq, Repr

/-- The pydantic field constraints of `LearningUpdatePatch`: each supplied
field is validated against the same bound as in `LearningUpdate`. -/
def validPatch (p : LearningUpdatePatch) : Bool :=
  (match p.topic with
   | some t => decide (t ∈ recognizedTopics)
   | none => true) &&
  (match p.hours_spent with
   | some q => decide (0 < q) && decide (q < 24)
   | none => true) &&
  (match p.difficulty_level with
   | some d => decide (1 ≤ d) && decide (d ≤ 5)
   | none => true) &&
  (match p.notes with
   | some s => decide (10 ≤ s.length)
   | none => true) &&
  (match p.understanding_level with
   | some l => decide (1 ≤ l) && decide (l ≤ 10)
   | none => true)

/-- `update.model_dump(exclude_unset=True)` is the empty dict. -/
def patchIsEmpty (p : LearningUpdatePatch) : Bool :=
  p.topic.isNone && p.hours_spent.isNone && p.difficulty_level.isNone &&
  p.notes.isNone && p.understanding_level.isNone && p.questions.isNone

/-- The dynamically assembled `UPDATE ... SET` statement: exactly the supplied
fields are assigned, every other column of the row is left as it was. -/
def applyPatch (p : LearningUpdatePatch) (r : Row) : Row :=
  { r with
    topic := p.topic.getD r.topic
    hours_spent := match p.hours_spent with
      | some q => .real q
      | none => r.hours_spent
    difficulty_level := match p.difficulty_level with
      | some d => .real (d : ℚ)
      | none => r.difficulty_level
    notes := p.notes.getD r.notes
    understanding_level := match p.understanding_level with
      | some l => .real (l : ℚ)
      | none => r.understanding_level
    questions := p.questions.getD r.questions }

/-- `PUT /update-progress/{entry_id}`.  The handler body raises
`HTTPException(404, "Entry not found")` when the id is absent and
`HTTPException(404, "No fields to update")` when the dumped patch is empty;
both are swallowed by the handler's own `except Exception as e:
raise HTTPException(status_code=400, detail=str(e))`, so the surfaced
response is status 400 with detail `str(e) = "404: <detail>"` in either case.
On success the UPDATE assigns the supplied fields of every row matching the
id (unique, as id is the primary key) and the row is re-SELECTed. -/
def update_learning_progress (st : Store) (eid : Nat)
    (p : LearningUpdatePatch) : Except HErr (Store × Row) :=
  if validPatch p = false then .error ⟨422, "validation error"⟩
  else if (st.rows.find? (fun r => r.id == eid)).isNone then
    .error ⟨400, "404: Entry not found"⟩
  else if patchIsEmpty p then
    .error ⟨400, "404: No fields to update"⟩
  else
    match (st.rows.map fun r =>
        if r.id = eid then applyPatch p r else r).find? (fun r => r.id == eid) with
    | some row =>
        .ok (⟨st.rows.map fun r => if r.id = eid then applyPatch p r else r,
              st.nextId⟩, row)
    | none => .error ⟨400, "TypeError: NoneType object is not subscriptable"⟩

/-- Newest-first order on rows: timestamps are `"%Y-%m-%d %H:%M:%S"` strings,
whose lexicographic order (the order `ORDER BY timestamp DESC` uses on TEXT)
coincides with chronological order. -/
def tsDesc (a b : Row) : Prop := b.timestamp ≤ a.timestamp

instance : DecidableRel tsDesc := fun a b =>
  inferInstanceAs (Decidable (b.timestamp ≤ a.timestamp))

instance : IsTotal Row tsDesc := ⟨fun a b => le_total b.timestamp a.timestamp⟩

instance : IsTrans Row tsDesc := ⟨fun _ _ _ h1 h2 => le_trans h2 h1⟩

/-- The response body of `GET /view-progress/by-topic/{topic}`. -/
structure ByTopic where
  topic : String
  recent_entries : Nat
  total_hours : ℚ
  average_difficulty : ℚ
  latest_entries : List Row
  deriving DecidableEq, Repr

/-- Python's `total += row[i]` accumulation over fetched cells: raises
(`none`) as soon as a non-numeric cell is added. -/
def sumVals : List SqlVal → Option ℚ
  | [] => some 0
  | v :: rest =>
    match pyFloat v, sumVals rest with
    | some q, some s => some (q + s)
    | _, _ => none

/-- `GET /view-progress/by-topic/{topic}`: the five most recent rows of the
topic, newest first.  The zero-match `HTTPException(404, ...)` raised inside
the handler's `try` is re-raised by its blanket `except Exception` as
status 400 with detail `str(e)`. -/
def get_progress_by_topic (st : Store) (topic : String) : Except HErr ByTopic :=
  if ((List.insertionSort tsDesc
        (st.rows.filter fun r => r.topic == topic)).take 5).isEmpty then
    .error ⟨400, "404: No entries found for topic: " ++ topic⟩
  else
    match sumVals (((List.insertionSort tsDesc
            (st.rows.filter fun r => r.topic == topic)).take 5).map
            fun r => r.hours_spent),
          sumVals (((List.insertionSort tsDesc
            (st.rows.filter fun r => r.topic == topic)).take 5).map
            fun r => r.difficulty_level) with
    | some th, some td =>
        .ok ⟨topic,
          ((List.insertionSort tsDesc
            (st.rows.filter fun r => r.topic == topic)).take 5).length,
          round2 th,
          round2 (td / (((List.insertionSort tsDesc
            (st.rows.filter fun r => r.topic == topic)).take 5).length : ℚ)),
          (List.insertionSort tsDesc
            (st.rows.filter fun r => r.topic == topic)).take 5⟩
    | _, _ => .error ⟨400, "TypeError: unsupported operand type"⟩

/-- The per-topic accumulator dict value of `get_learning_summary`:
`{"total_hours": ..., "sessions": ..., "total_understanding": ...,
"entries": [...]}`. -/
structure TopicAcc where
  total_hours : ℚ
  sessions : Nat
  total_understanding : ℚ
  entries : List (String × ℚ × ℚ)
  deriving DecidableEq, Repr

/-- The freshly initialized dict value. -/
def emptyAcc : TopicAcc := ⟨0, 0, 0, []⟩

/-- The four `+=`/`append` statements run for one converted row. -/
def pushAcc (s : TopicAcc) (h u : ℚ) (d : String) : TopicAcc :=
  ⟨s.total_hours + h, s.sessions + 1, s.total_understanding + u,
    s.entries ++ [(d, h, u)]⟩

/-- One loop iteration's effect on the `topics` dict (a Python dict preserves
key insertion order, modelled as an association list). -/
def updateTopics : List (String × TopicAcc) → String → ℚ → ℚ → String →
    List (String × TopicAcc)
  | [], t, h, u, d => [(t, pushAcc emptyAcc h u d)]
  | (t', s) :: rest, t, h, u, d =>
    if t = t' then (t', pushAcc s h u d) :: rest
    else (t', s) :: updateTopics rest t h u d

/-- The `for entry in all_data` loop of `get_learning_summary`: convert the
numeric cells, skip the row (`continue`) if either conversion raises,
otherwise update the topic dict and the running `total_hours`. -/
def summarLoop : List Row → List (String × TopicAcc) × ℚ →
    List (String × TopicAcc) × ℚ
  | [], st => st
  | r :: rest, (topics, th) =>
    match pyFloat r.hours_spent, pyFloat r.understanding_level with
    | some h, some u =>
        summarLoop rest (updateTopics topics r.topic h u r.timestamp, th + h)
    | _, _ => summarLoop rest (topics, th)

/-- `avg_understanding = (total_understanding / sessions) if sessions > 0
else 0`. -/
def avgUnderstanding (s : TopicAcc) : ℚ :=
  if 0 < s.sessions then s.total_understanding / (s.sessions : ℚ) else 0

/-- One element of `topic_statistics`. -/
structure TopicStat where
  topic : String
  total_hours : ℚ
  number_of_sessions : Nat
  average_understanding : ℚ
  deriving DecidableEq, Repr

/-- The dict appended to `topic_stats` for one topic group: note the source
rounds `total_hours` (and the average) to two decimals HERE, before the
sort. -/
def mkStat (t : String) (s : TopicAcc) : TopicStat :=
  ⟨t, round2 s.total_hours, s.sessions, round2 (avgUnderstanding s)⟩

/-- The sort key of `topic_stats.sort(key=..., reverse=True)`: descending by
the (already rounded) `total_hours`; the relation is non-strict so that
`insertionSort` reproduces the stability of Python's sort. -/
def statDesc (a b : TopicStat) : Prop := b.total_hours ≤ a.total_hours

instance : DecidableRel statDesc := fun a b =>
  inferInstanceAs (Decidable (b.total_hours ≤ a.total_hours))

instance : IsTotal TopicStat statDesc :=
  ⟨fun a b => le_total b.total_hours a.total_hours⟩

instance : IsTrans TopicStat statDesc := ⟨fun _ _ _ h1 h2 => le_trans h2 h1⟩

/-- The sorted `topic_stats` list of `get_learning_summary`. -/
def sortedStats (rows : List Row) : List TopicStat :=
  List.insertionSort statDesc
    ((summarLoop rows ([], 0)).1.map fun p => mkStat p.1 p.2)

/-- The response of `GET /analytics/learning-summary`. -/
structure Summary where
  total_entries : Nat
  total_hours : ℚ
  unique_topics : Nat
  most_studied_topic : Option String
  topic_statistics : List TopicStat
  deriving DecidableEq, Repr

/-- `get_learning_summary`: `total_entries` counts every fetched row
(converted or not), `total_hours` is the rounded running sum over converted
rows, `unique_topics` the number of dict keys, and the most-studied topic the
head of the sorted statistics when any exist. -/
def getLearningSummary (rows : List Row) : Summary :=
  ⟨rows.length,
    round2 (summarLoop rows ([], 0)).2,
    (summarLoop rows ([], 0)).1.length,
    ((sortedStats rows).head?).map (fun s => s.topic),
    sortedStats rows⟩

/-- A fetched row after successful numeric conversion:
`(topic, hours, understanding, timestamp)`. -/
def conv (r : Row) : Option (String × ℚ × ℚ × String) :=
  match pyFloat r.hours_spent, pyFloat r.understanding_level with
  | some h, some u => some (r.topic, h, u, r.timestamp)
  | _, _ => none

/-- The convertible rows, in store order. -/
def convRows (rows : List Row) : List (String × ℚ × ℚ × String) :=
  rows.filterMap conv

/-- Summed hours of a list of converted rows. -/
def gHours (g : List (String × ℚ × ℚ × String)) : ℚ :=
  (g.map fun x => x.2.1).sum

/-- Summed understanding of a list of converted rows. -/
def gUnd (g : List (String × ℚ × ℚ × String)) : ℚ :=
  (g.map fun x => x.2.2.1).sum

/-- The `entries` dicts produced for a list of converted rows. -/
def gEntries (g : List (String × ℚ × ℚ × String)) : List (String × ℚ × ℚ) :=
  g.map fun x => (x.2.2.2, x.2.1, x.2.2.1)

/-- The converted rows carrying a given topic, in store order. -/
def topicGroup (rows : List Row) (t : String) : List (String × ℚ × ℚ × String) :=
  (convRows rows).filter fun x => x.1 == t

/-- Full-precision summed `hours_spent` of a topic (over convertible rows). -/
def topicHoursSum (rows : List Row) (t : String) : ℚ := gHours (topicGroup rows t)

/-- Session count of a topic (its number of convertible rows). -/
def topicSessions (rows : List Row) (t : String) : Nat := (topicGroup rows t).length

/-- Full-precision summed `understanding_level` of a topic. -/
def topicUndSum (rows : List Row) (t : String) : ℚ := gUnd (topicGroup rows t)

/-- The accumulator a topic's group aggregates to. -/
def groupAcc (rows : List Row) (t : String) : TopicAcc :=
  ⟨topicHoursSum rows t, topicSessions rows t, topicUndSum rows t,
    gEntries (topicGroup rows t)⟩

/-- The repeated-fold core of `summarLoop`, over already-converted rows. -/
def foldUpd (acc : List (String × TopicAcc)) :
    List (String × ℚ × ℚ × String) → List (String × TopicAcc)
  | [] => acc
  | (t, h, u, d) :: rest => foldUpd (updateTopics acc t h u d) rest

/-- The `topics` dict after the whole loop. -/
def topicsOf (rows : List Row) : List (String × TopicAcc) :=
  foldUpd [] (convRows rows)

/-- First-match lookup in the association-list model of the dict. -/
def lookupT : List (String × TopicAcc) → String → Option TopicAcc
  | [], _ => none
  | (t, s) :: rest, t' => if t' = t then some s else lookupT rest t'

/-- An accumulator extended by a further batch of converted rows. -/
def extendAcc (s : TopicAcc) (g : List (String × ℚ × ℚ × String)) : TopicAcc :=
  ⟨s.total_hours + gHours g, s.sessions + g.length,
    s.total_understanding + gUnd g, s.entries ++ gEntries g⟩

/-- The dict keys, in insertion order. -/
def keysOf (acc : List (String × TopicAcc)) : List String := acc.map fun p => p.1

/-- Total session count over the dict. -/
def accSessions (acc : List (String × TopicAcc)) : Nat :=
  (acc.map fun p => p.2.sessions).sum

/-- Total session count reported by a statistics list. -/
def statSessions (l : List TopicStat) : Nat :=
  (l.map fun s => s.number_of_sessions).sum

/-- A well-formed stored row: given id, topic, hours and understanding;
difficulty 3, ten-character notes, no questions. -/
def sampleRow (n : Nat) (t : String) (h u : ℚ) (ts : String) : Row :=
  ⟨n, t, .real h, .real 3, "0123456789", .real u, [], ts⟩

/-- The three-record scenario of the spec: (Python, 2.0h), (Python, 1.0h),
(Containers, 4.0h). -/
def scenarioRows : List Row :=
  [sampleRow 1 "Python" 2 5 "2025-01-01 10:00:00",
   sampleRow 2 "Python" 1 5 "2025-01-02 10:00:00",
   sampleRow 3 "Containers" 4 5 "2025-01-03 10:00:00"]

/-- Two topics whose full-precision sums differ (2.001 < 2.002) but whose
two-decimal roundings tie at 2.0. -/
def tieRows : List Row :=
  [sampleRow 1 "AI" (2001/1000) 5 "2025-01-01 10:00:00",
   sampleRow 2 "Database" (2002/1000) 5 "2025-01-02 10:00:00"]

/-- Two topics with exactly equal summed hours, inserted in
non-alphabetical order. -/
def equalSumRows : List Row :=
  [sampleRow 1 "Python" 2 5 "2025-01-01 10:00:00",
   sampleRow 2 "AI" 2 5 "2025-01-02 10:00:00"]

/-- The two-record same-topic scenario of the spec: hours 2.5 and 1.5,
understanding 8 and 6. -/
def meanRows : List Row :=
  [sampleRow 1 "Python" (5/2) 8 "2025-01-01 10:00:00",
   sampleRow 2 "Python" (3/2) 6 "2025-01-02 10:00:00"]

/-- A store with one row whose `hours_spent` cell is non-numeric text, the
defensive skip case of `get_learning_summary`. -/
def malformedRows : List Row :=
  [⟨1, "Python", .text "garbage", .real 3, "0123456789", .real 5, [],
    "2025-01-01 10:00:00"⟩]

/-- A candidate body violating the `hours_spent > 0` constraint. -/
def zeroHoursUpdate : LearningUpdate := ⟨"Python", 0, 3, "0123456789", 5, []⟩

/-- A single well-formed row with id 7. -/
def oneRow : Row := sampleRow 7 "Python" 2 5 "2025-01-01 10:00:00"

/-- A store holding only `oneRow`. -/
def oneRowStore : Store := ⟨[oneRow], 8⟩

/-- The patch body with no fields supplied. -/
def emptyPatch : LearningUpdatePatch := ⟨none, none, none, none, none, none⟩

/-- A patch body supplying only `hours_spent`. -/
def hoursPatch (q : ℚ) : LearningUpdatePatch := ⟨none, some q, none, none, none, none⟩

/-- `oneRow` with only its hours replaced by 3. -/
def patchedRow : Row := { oneRow with hours_spent := .real 3 }

/-- The store after patching `oneRow` with hours 3. -/
def patchedStore : Store := ⟨[patchedRow], 8⟩

/-- The by-topic response for `oneRowStore` and topic Python. -/
def okByTopic : ByTopic := ⟨"Python", 1, 2, 3, [oneRow]⟩

section

attribute [local semireducible] Rat.add Rat.mul Rat.inv Rat.sub

theorem lookupT_update (acc : List (String × TopicAcc)) (t : String) (h u : ℚ)
    (d : String) (t' : String) :
    lookupT (updateTopics acc t h u d) t' =
      if t' = t then some (pushAcc ((lookupT acc t).getD emptyAcc) h u d)
      else lookupT acc t' := by
  induction acc with
  | nil => simp [updateTopics, lookupT]
  | cons p rest ih =>
    obtain ⟨t0, s0⟩ := p
    by_cases ht : t = t0
    · subst ht
      simp only [updateTopics, if_pos rfl, lookupT]
      by_cases ht' : t' = t
      · simp [ht']
      · simp [ht']
    · simp only [updateTopics, if_neg ht, lookupT, ht, if_false]
      by_cases h0 : t' = t0
      · have h1 : ¬t' = t := by
          rw [h0]; exact fun hh => ht hh.symm
        have h2 : ¬t0 = t := fun hh => ht hh.symm
        simp [h0, h1, h2]
      · simp only [h0, if_false, ih]

theorem extendAcc_nil (s : TopicAcc) : extendAcc s [] = s := by
  simp [extendAcc, gHours, gUnd, gEntries]

theorem extendAcc_push (s : TopicAcc) (t : String) (h u : ℚ) (d : String)
    (g : List (String × ℚ × ℚ × String)) :
    extendAcc (pushAcc s h u d) g = extendAcc s ((t, h, u, d) :: g) := by
  simp only [extendAcc, pushAcc, gHours, gUnd, gEntries, List.map_cons,
    List.sum_cons, List.length_cons, TopicAcc.mk.injEq]
  refine ⟨by ring, by omega, by ring, by simp⟩

theorem lookupT_foldUpd_some (l : List (String × ℚ × ℚ × String))
    (acc : List (String × TopicAcc)) (t : String) (s : TopicAcc)
    (hs : lookupT acc t = some s) :
    lookupT (foldUpd acc l) t = some (extendAcc s (l.filter fun x => x.1 == t)) := by
  induction l generalizing acc s with
  | nil => simp [foldUpd, hs, extendAcc_nil]
  | cons x rest ih =>
    obtain ⟨t0, h, u, d⟩ := x
    by_cases h0 : t0 = t
    · subst h0
      simp only [foldUpd]
      rw [ih (updateTopics acc t0 h u d) (pushAcc s h u d) ?_]
      · rw [List.filter_cons]
        rw [if_pos (beq_self_eq_true t0)]
        rw [extendAcc_push s t0 h u d]
      · rw [lookupT_update, if_pos rfl, hs]
        rfl
    · simp only [foldUpd]
      rw [ih (updateTopics acc t0 h u d) s ?_]
      · rw [List.filter_cons]
        simp [h0]
      · rw [lookupT_update, if_neg (fun hh => h0 hh.symm)]
        exact hs

theorem lookupT_foldUpd_none (l : List (String × ℚ × ℚ × String))
    (acc : List (String × TopicAcc)) (t : String)
    (hn : lookupT acc t = none) :
    lookupT (foldUpd acc l) t =
      if (l.filter fun x => x.1 == t) = [] then none
      else some (extendAcc emptyAcc (l.filter fun x => x.1 == t)) := by
  induction l generalizing acc with
  | nil => simp [foldUpd, hn]
  | cons x rest ih =>
    obtain ⟨t0, h, u, d⟩ := x
    by_cases h0 : t0 = t
    · subst h0
      simp only [foldUpd]
      rw [lookupT_foldUpd_some rest (updateTopics acc t0 h u d) t0 (pushAcc emptyAcc h u d) ?_]
      · rw [List.filter_cons]
        rw [if_pos (beq_self_eq_true t0)]
        rw [if_neg (List.cons_ne_nil _ _)]
        rw [extendAcc_push emptyAcc t0 h u d]
      · rw [lookupT_update, if_pos rfl, hn]
        rfl
    · simp only [foldUpd]
      rw [ih (updateTopics acc t0 h u d) ?_]
      · rw [List.filter_cons]
        rw [if_neg (fun hh => h0 (eq_of_beq hh))]
      · rw [lookupT_update, if_neg (fun hh => h0 hh.symm)]
        exact hn

theorem gHours_cons (t : String) (h u : ℚ) (d : String)
    (g : List (String × ℚ × ℚ × String)) :
    gHours ((t, h, u, d) :: g) = h + gHours g := by
  simp [gHours]

theorem summarLoop_eq (rows : List Row) (acc : List (String × TopicAcc)) (th : ℚ) :
    summarLoop rows (acc, th) =
      (foldUpd acc (convRows rows), th + gHours (convRows rows)) := by
  induction rows generalizing acc th with
  | nil => simp [summarLoop, convRows, foldUpd, gHours]
  | cons r rest ih =>
    simp only [summarLoop, convRows, List.filterMap_cons]
    cases hh : pyFloat r.hours_spent with
    | none =>
      simp only [conv, hh]
      exact ih acc th
    | some h =>
      cases hu : pyFloat r.understanding_level with
      | none =>
        simp only [conv, hh, hu]
        exact ih acc th
      | some u =>
        simp only [conv, hh, hu]
        rw [ih (updateTopics acc r.topic h u r.timestamp) (th + h)]
        rw [show (rest.filterMap conv) = convRows rest from rfl]
        simp only [foldUpd, gHours_cons]
        rw [add_assoc]

theorem keysOf_update (acc : List (String × TopicAcc)) (t : String) (h u : ℚ)
    (d : String) :
    keysOf (updateTopics acc t h u d) =
      if t ∈ keysOf acc then keysOf acc else keysOf acc ++ [t] := by
  induction acc with
  | nil => simp [updateTopics, keysOf]
  | cons p rest ih =>
    obtain ⟨t0, s0⟩ := p
    by_cases ht : t = t0
    · subst ht
      simp [updateTopics, keysOf]
    · simp only [updateTopics, if_neg ht, keysOf, List.map_cons, List.mem_cons]
      rw [show keysOf (updateTopics rest t h u d) = List.map (fun p => p.1) (updateTopics rest t h u d) from rfl] at ih
      rw [ih]
      by_cases hm : t ∈ keysOf rest
      · have hm' : t ∈ List.map (fun p : String × TopicAcc => p.1) rest := hm
        rw [if_pos hm, if_pos (Or.inr hm')]
        rfl
      · rw [if_neg hm, if_neg ?_]
        · rfl
        · intro hc
          rcases hc with hc | hc
          · exact ht hc
          · exact hm hc

theorem nodup_keysOf_update (acc : List (String × TopicAcc)) (t : String)
    (h u : ℚ) (d : String) (hnd : (keysOf acc).Nodup) :
    (keysOf (updateTopics acc t h u d)).Nodup := by
  rw [keysOf_update]
  by_cases hm : t ∈ keysOf acc
  · simp [hm, hnd]
  · simp only [hm, if_false, List.nodup_append]
    refine ⟨hnd, List.nodup_singleton t, fun a ha => ?_⟩
    simp only [List.mem_singleton]
    exact fun hat => hm (hat ▸ ha)

theorem nodup_keysOf_foldUpd (l : List (String × ℚ × ℚ × String))
    (acc : List (String × TopicAcc)) (hnd : (keysOf acc).Nodup) :
    (keysOf (foldUpd acc l)).Nodup := by
  induction l generalizing acc with
  | nil => exact hnd
  | cons x rest ih =>
    obtain ⟨t0, h, u, d⟩ := x
    exact ih _ (nodup_keysOf_update acc t0 h u d hnd)

theorem nodup_keysOf_topicsOf (rows : List Row) :
    (keysOf (topicsOf rows)).Nodup :=
  nodup_keysOf_foldUpd _ [] (by simp [keysOf])

theorem lookupT_eq_of_mem (acc : List (String × TopicAcc)) (t : String)
    (s : TopicAcc) (hnd : (keysOf acc).Nodup) (hm : (t, s) ∈ acc) :
    lookupT acc t = some s := by
  induction acc with
  | nil => cases hm
  | cons p rest ih =>
    obtain ⟨t0, s0⟩ := p
    rw [keysOf] at hnd
    simp only [List.map_cons, List.nodup_cons] at hnd
    rcases List.mem_cons.1 hm with heq | htail
    · injection heq with h1 h2
      subst h1
      subst h2
      rw [lookupT, if_pos rfl]
    · by_cases ht : t = t0
      · subst ht
        exact absurd (List.mem_map.2 ⟨(t, s), htail, rfl⟩) hnd.1
      · rw [lookupT, if_neg ht]
        exact ih hnd.2 htail

theorem mem_of_lookupT (acc : List (String × TopicAcc)) (t : String)
    (s : TopicAcc) (hl : lookupT acc t = some s) : (t, s) ∈ acc := by
  induction acc with
  | nil => cases hl
  | cons p rest ih =>
    obtain ⟨t0, s0⟩ := p
    by_cases ht : t = t0
    · subst ht
      rw [lookupT, if_pos rfl] at hl
      injection hl with hl
      subst hl
      exact List.mem_cons_self _ _
    · rw [lookupT, if_neg ht] at hl
      exact List.mem_cons_of_mem _ (ih hl)

theorem extendAcc_empty (g : List (String × ℚ × ℚ × String)) :
    extendAcc emptyAcc g = ⟨gHours g, g.length, gUnd g, gEntries g⟩ := by
  simp [extendAcc, emptyAcc]

theorem lookupT_topicsOf (rows : List Row) (t : String) :
    lookupT (topicsOf rows) t =
      if topicGroup rows t = [] then none else some (groupAcc rows t) := by
  rw [topicsOf, lookupT_foldUpd_none (convRows rows) [] t rfl]
  rw [show ((convRows rows).filter fun x => x.1 == t) = topicGroup rows t from rfl]
  by_cases hg : topicGroup rows t = []
  · rw [if_pos hg, if_pos hg]
  · rw [if_neg hg, if_neg hg, extendAcc_empty]
    rfl

theorem mem_topicsOf_spec (rows : List Row) (t : String) (acc : TopicAcc)
    (hm : (t, acc) ∈ topicsOf rows) :
    acc = groupAcc rows t ∧ topicGroup rows t ≠ [] := by
  have hl := lookupT_eq_of_mem (topicsOf rows) t acc (nodup_keysOf_topicsOf rows) hm
  rw [lookupT_topicsOf] at hl
  by_cases hg : topicGroup rows t = []
  · rw [if_pos hg] at hl
    cases hl
  · rw [if_neg hg] at hl
    injection hl with hl
    exact ⟨hl.symm, hg⟩

theorem mem_topicsOf_of_group (rows : List Row) (t : String)
    (hg : topicGroup rows t ≠ []) : (t, groupAcc rows t) ∈ topicsOf rows := by
  apply mem_of_lookupT
  rw [lookupT_topicsOf, if_neg hg]

theorem accSessions_update (acc : List (String × TopicAcc)) (t : String)
    (h u : ℚ) (d : String) :
    accSessions (updateTopics acc t h u d) = accSessions acc + 1 := by
  induction acc with
  | nil => simp [updateTopics, accSessions, pushAcc, emptyAcc]
  | cons p rest ih =>
    obtain ⟨t0, s0⟩ := p
    by_cases ht : t = t0
    · subst ht
      simp only [updateTopics, eq_self_iff_true, if_true, accSessions, List.map_cons,
        List.sum_cons, pushAcc]
      omega
    · simp only [updateTopics, if_neg ht, accSessions, List.map_cons, List.sum_cons]
      rw [show (List.map (fun p => p.2.sessions) (updateTopics rest t h u d)).sum
          = accSessions (updateTopics rest t h u d) from rfl, ih]
      rw [show (List.map (fun p => p.2.sessions) rest).sum = accSessions rest from rfl]
      omega

theorem accSessions_foldUpd (l : List (String × ℚ × ℚ × String))
    (acc : List (String × TopicAcc)) :
    accSessions (foldUpd acc l) = accSessions acc + l.length := by
  induction l generalizing acc with
  | nil => simp [foldUpd]
  | cons x rest ih =>
    obtain ⟨t0, h, u, d⟩ := x
    simp only [foldUpd, List.length_cons]
    rw [ih, accSessions_update]
    omega

theorem topicsOf_fst (rows : List Row) :
    (summarLoop rows ([], 0)).1 = topicsOf rows := by
  rw [summarLoop_eq]
  rfl

theorem totalHours_snd (rows : List Row) :
    (summarLoop rows ([], 0)).2 = gHours (convRows rows) := by
  rw [summarLoop_eq]
  simp

theorem sortedStats_eq (rows : List Row) :
    sortedStats rows =
      List.insertionSort statDesc ((topicsOf rows).map fun p => mkStat p.1 p.2) := by
  rw [sortedStats, topicsOf_fst]

theorem mem_sortedStats (rows : List Row) (s : TopicStat) :
    s ∈ sortedStats rows ↔ ∃ p ∈ topicsOf rows, mkStat p.1 p.2 = s := by
  rw [sortedStats_eq, List.mem_insertionSort, List.mem_map]

theorem sorted_sortedStats (rows : List Row) :
    List.Sorted statDesc (sortedStats rows) := by
  rw [sortedStats_eq]
  exact List.sorted_insertionSort statDesc _

theorem stat_spec (rows : List Row) (s : TopicStat) (hm : s ∈ sortedStats rows) :
    s.total_hours = round2 (topicHoursSum rows s.topic)
    ∧ s.number_of_sessions = topicSessions rows s.topic
    ∧ s.average_understanding = round2 (avgUnderstanding (groupAcc rows s.topic))
    ∧ 1 ≤ topicSessions rows s.topic := by
  obtain ⟨⟨t, acc⟩, hp, hs⟩ := (mem_sortedStats rows s).1 hm
  obtain ⟨hacc, hne⟩ := mem_topicsOf_spec rows t acc hp
  subst hacc
  subst hs
  have hlen : 1 ≤ topicSessions rows t := by
    rw [topicSessions]
    exact Nat.one_le_iff_ne_zero.2 (fun hz => hne (List.length_eq_zero.1 hz))
  exact ⟨rfl, rfl, rfl, hlen⟩

theorem head_max_sorted (l : List TopicStat) (s0 : TopicStat)
    (hs : List.Sorted statDesc l) (hh : l.head? = some s0) :
    ∀ x ∈ l, x.total_hours ≤ s0.total_hours := by
  cases l with
  | nil => cases hh
  | cons a tail =>
    injection hh with hh
    subst hh
    intro x hx
    rcases List.mem_cons.1 hx with rfl | hxt
    · exact le_refl _
    · exact List.rel_of_sorted_cons hs x hxt


/-- C1 (counterexample): in `tieRows` the topic with the largest
full-precision summed hours is Database (2.002 over AI's 2.001), yet
`summarize()` reports AI as most-studied, because the per-topic sums are
rounded to two decimals before the sort and the resulting tie keeps dict
insertion order. -/
theorem C1_counterexample :
    (getLearningSummary tieRows).most_studied_topic = some "AI"
    ∧ topicHoursSum tieRows "AI" < topicHoursSum tieRows "Database" := by
  decide

/-- C1 (amended): the most-studied topic reported by `summarize()` is a
topic whose TWO-DECIMAL-ROUNDED summed `hours_spent` is maximal over all
present topics (when rounding creates ties this may differ from the
full-precision argmax); the spec scenario (Python 2.0h + 1.0h versus
Containers 4.0h -> Containers most-studied, Python sessions 2 and hours 3.0)
holds, and an empty store yields no most-studied topic rather than an
error. -/
theorem most_studied_topic_spec :
    (∀ (rows : List Row) (t : String),
      (getLearningSummary rows).most_studied_topic = some t →
      ∀ t', 1 ≤ topicSessions rows t' →
        round2 (topicHoursSum rows t') ≤ round2 (topicHoursSum rows t))
    ∧ (getLearningSummary []).most_studied_topic = none
    ∧ (getLearningSummary scenarioRows).most_studied_topic = some "Containers"
    ∧ ((getLearningSummary scenarioRows).topic_statistics.map
        fun s => (s.topic, s.total_hours, s.number_of_sessions))
      = [("Containers", 4, 1), ("Python", 3, 2)] := by
  refine ⟨?_, by decide, by decide, by decide⟩
  intro rows t hms t' hsess
  have hms' : ((sortedStats rows).head?).map (fun s => s.topic) = some t := hms
  cases hh : (sortedStats rows).head? with
  | none =>
    rw [hh] at hms'
    cases hms'
  | some s0 =>
    rw [hh] at hms'
    injection hms' with hms'
    subst hms'
    have hs0mem : s0 ∈ sortedStats rows := by
      cases hl : sortedStats rows with
      | nil =>
        rw [hl] at hh
        cases hh
      | cons a tl =>
        rw [hl] at hh
        injection hh with hh
        rw [hh]
        exact List.mem_cons_self _ _
    have hg' : topicGroup rows t' ≠ [] := by
      intro hz
      rw [topicSessions, hz] at hsess
      simp at hsess
    have hstat' : mkStat t' (groupAcc rows t') ∈ sortedStats rows :=
      (mem_sortedStats rows _).2
        ⟨(t', groupAcc rows t'), mem_topicsOf_of_group rows t' hg', rfl⟩
    have hle := head_max_sorted (sortedStats rows) s0 (sorted_sortedStats rows) hh
      _ hstat'
    rw [(stat_spec rows s0 hs0mem).1] at hle
    exact hle

/-- Witness for `most_studied_topic_spec` at the scenario store. -/
theorem most_studied_topic_spec_witness :
    round2 (topicHoursSum scenarioRows "Python")
      ≤ round2 (topicHoursSum scenarioRows "Containers") :=
  most_studied_topic_spec.1 scenarioRows "Containers" (by decide) "Python" (by decide)

/-- C2 (counterexample): in `equalSumRows` the topics Python and AI have
exactly equal summed hours, and AI precedes Python in name order, yet the
breakdown lists Python first (first-appearance order), refuting the claimed
tie-break by topic name ascending. -/
theorem C2_counterexample :
    ((getLearningSummary equalSumRows).topic_statistics.map fun s => s.topic)
      = ["Python", "AI"]
    ∧ topicHoursSum equalSumRows "Python" = topicHoursSum equalSumRows "AI"
    ∧ "AI".data < "Python".data := by
  decide

/-- C2 (amended): the per-topic breakdown of `summarize()` is sorted in
descending order of each topic's summed hours ROUNDED to two decimals (the
rounding happens before the sort, and ties in the rounded sums keep the
topics' first-appearance order); each reported per-topic total is the
two-decimal rounding of the full-precision sum. -/
theorem breakdown_sorted_spec (rows : List Row) :
    List.Sorted statDesc ((getLearningSummary rows).topic_statistics)
    ∧ ∀ s ∈ (getLearningSummary rows).topic_statistics,
        s.total_hours = round2 (topicHoursSum rows s.topic) := by
  exact ⟨sorted_sortedStats rows, fun s hs => (stat_spec rows s hs).1⟩

/-- Witness for `breakdown_sorted_spec` at the scenario store and its
Containers statistics entry. -/
theorem breakdown_sorted_spec_witness :
    (⟨"Containers", 4, 1, 5⟩ : TopicStat).total_hours
      = round2 (topicHoursSum scenarioRows "Containers") :=
  (breakdown_sorted_spec scenarioRows).2 ⟨"Containers", 4, 1, 5⟩ (by decide)

/-- C3: for every non-empty topic group, the average understanding computed
by `summarize()` (`avg_understanding`) is the exact arithmetic mean of the
group's understanding values, and in the spec scenario (2.5h/8 then 1.5h/6
on the same topic) the reported per-topic average equals 7.0 exactly. -/
theorem average_understanding_mean :
    (∀ (rows : List Row) (t : String) (acc : TopicAcc), (t, acc) ∈ topicsOf rows →
      avgUnderstanding acc = topicUndSum rows t / (topicSessions rows t : ℚ))
    ∧ ((getLearningSummary meanRows).topic_statistics.map
        fun s => (s.topic, s.average_understanding)) = [("Python", 7)] := by
  refine ⟨?_, by decide⟩
  intro rows t acc hm
  obtain ⟨hacc, hne⟩ := mem_topicsOf_spec rows t acc hm
  subst hacc
  have hpos : 0 < (groupAcc rows t).sessions := by
    rw [show (groupAcc rows t).sessions = topicSessions rows t from rfl, topicSessions]
    exact List.length_pos.2 hne
  rw [avgUnderstanding, if_pos hpos]
  rfl

/-- Witness for `average_understanding_mean` at the mean scenario store. -/
theorem average_understanding_mean_witness :
    avgUnderstanding (groupAcc meanRows "Python")
      = topicUndSum meanRows "Python" / (topicSessions meanRows "Python" : ℚ) :=
  average_understanding_mean.1 meanRows "Python" (groupAcc meanRows "Python") (by decide)

/-- C4: every topic group built by `summarize()` has session count at least
one, so the per-topic average computation takes the guarded division branch
(its zero-sessions fallback is unreachable) and never divides by zero. -/
theorem topic_groups_nonempty :
    ∀ (rows : List Row) (t : String) (acc : TopicAcc), (t, acc) ∈ topicsOf rows →
      1 ≤ acc.sessions
      ∧ avgUnderstanding acc = acc.total_understanding / (acc.sessions : ℚ) := by
  intro rows t acc hm
  obtain ⟨hacc, hne⟩ := mem_topicsOf_spec rows t acc hm
  subst hacc
  have hpos : 0 < (groupAcc rows t).sessions := by
    rw [show (groupAcc rows t).sessions = topicSessions rows t from rfl, topicSessions]
    exact List.length_pos.2 hne
  exact ⟨hpos, by rw [avgUnderstanding, if_pos hpos]⟩

/-- Witness for `topic_groups_nonempty` at the scenario store's Python
group. -/
theorem topic_groups_nonempty_witness :
    1 ≤ (groupAcc scenarioRows "Python").sessions
    ∧ avgUnderstanding (groupAcc scenarioRows "Python")
      = (groupAcc scenarioRows "Python").total_understanding
        / ((groupAcc scenarioRows "Python").sessions : ℚ) :=
  topic_groups_nonempty scenarioRows "Python" (groupAcc scenarioRows "Python") (by decide)

/-- C5: `summarize()` on an empty store does not fail: it returns
`total_entries = 0`, `total_hours = 0`, zero unique topics, no most-studied
topic and an empty per-topic breakdown. -/
theorem summary_empty_store :
    getLearningSummary [] = ⟨0, 0, 0, none, []⟩ := by
  decide



/-- C6: an insert candidate violating any single field constraint
(`hours_spent` outside (0, 24), `difficulty_level` outside [1, 5], notes
shorter than 10 characters, `understanding_level` outside [1, 10], or an
unrecognized topic) is rejected with a validation error and no record is
persisted: the store is unchanged because the handler returns before any
INSERT. -/
theorem insert_invalid_rejected :
    ∀ (st : Store) (u : LearningUpdate) (now : String),
      (u.hours_spent ≤ 0 ∨ 24 ≤ u.hours_spent
        ∨ u.difficulty_level < 1 ∨ 5 < u.difficulty_level
        ∨ u.notes.length < 10
        ∨ u.understanding_level < 1 ∨ 10 < u.understanding_level
        ∨ u.topic ∉ recognizedTopics) →
      add_learning_progress st u now = .error ⟨422, "validation error"⟩ := by
  intro st u now hbad
  have hv : validUpdate u = false := by
    cases hb : validUpdate u
    · rfl
    · exfalso
      simp only [validUpdate, Bool.and_eq_true, decide_eq_true_eq] at hb
      obtain ⟨⟨⟨⟨⟨⟨⟨hmem, h1⟩, h2⟩, h3⟩, h4⟩, h5⟩, h6⟩, h7⟩ := hb
      rcases hbad with h | h | h | h | h | h | h | h
      · exact absurd h1 (not_lt.2 h)
      · exact absurd h2 (not_lt.2 h)
      · omega
      · omega
      · omega
      · omega
      · omega
      · exact h hmem
  rw [add_learning_progress, hv]
  simp

/-- Witness for `insert_invalid_rejected` at a zero-hours candidate. -/
theorem insert_invalid_rejected_witness :
    add_learning_progress ⟨[], 1⟩ zeroHoursUpdate "2025-01-01 10:00:00"
      = .error ⟨422, "validation error"⟩ :=
  insert_invalid_rejected ⟨[], 1⟩ zeroHoursUpdate "2025-01-01 10:00:00"
    (Or.inl (by decide))

/-- C7: a successful patch supplying only `hours_spent` rewrites exactly the
matching record's hours cell; its topic, difficulty, notes, understanding,
questions, id and timestamp are untouched, every other record is unchanged,
and the id counter is unchanged. -/
theorem patch_hours_frame :
    ∀ (st : Store) (eid : Nat) (q : ℚ) (st2 : Store) (r : Row),
      update_learning_progress st eid (hoursPatch q) = .ok (st2, r) →
      st2.rows = st.rows.map
        (fun row => if row.id = eid
          then { row with hours_spent := SqlVal.real q } else row)
      ∧ st2.nextId = st.nextId := by
  intro st eid q st2 r h
  rw [update_learning_progress] at h
  by_cases hv : validPatch (hoursPatch q) = false
  · rw [if_pos hv] at h
    cases h
  · rw [if_neg hv] at h
    by_cases hf : (st.rows.find? (fun r => r.id == eid)).isNone = true
    · rw [if_pos hf] at h
      cases h
    · rw [if_neg hf] at h
      rw [show patchIsEmpty (hoursPatch q) = false from rfl] at h
      simp only [Bool.false_eq_true, if_false] at h
      cases hfind : (st.rows.map fun row =>
          if row.id = eid then applyPatch (hoursPatch q) row else row).find?
          (fun r => r.id == eid) with
      | none =>
        rw [hfind] at h
        cases h
      | some row0 =>
        rw [hfind] at h
        injection h with h
        injection h with h1 h2
        rw [← h1]
        exact ⟨rfl, rfl⟩

/-- Witness for `patch_hours_frame` at the one-row store with hours 3. -/
theorem patch_hours_frame_witness :
    patchedStore.rows = oneRowStore.rows.map
      (fun row => if row.id = 7
        then { row with hours_spent := SqlVal.real 3 } else row)
    ∧ patchedStore.nextId = oneRowStore.nextId :=
  patch_hours_frame oneRowStore 7 3 patchedStore patchedRow (by decide)

/-- C8 (counterexample): patching id 1 of an empty store with the empty
patch fails with the not-found error, not the no-fields-to-update error, so
the empty patch does not fail with a NoOpError for EVERY id. -/
theorem C8_counterexample :
    update_learning_progress ⟨[], 1⟩ 1 emptyPatch
      = .error ⟨400, "404: Entry not found"⟩
    ∧ ("404: Entry not found" ≠ "404: No fields to update") := by
  decide

/-- C8 (amended): an empty patch always fails and never mutates the store;
when the id is present the failure is the no-fields-to-update error
(surfaced as HTTP 400, detail "404: No fields to update", by the handler's
blanket exception wrapper), and when the id is absent it is the not-found
error (also surfaced as HTTP 400). -/
theorem patch_empty_spec :
    ∀ (st : Store) (eid : Nat),
      ((∃ r ∈ st.rows, r.id = eid) →
        update_learning_progress st eid emptyPatch
          = .error ⟨400, "404: No fields to update"⟩)
      ∧ ((∀ r ∈ st.rows, r.id ≠ eid) →
        update_learning_progress st eid emptyPatch
          = .error ⟨400, "404: Entry not found"⟩)
      ∧ ∀ out, update_learning_progress st eid emptyPatch ≠ .ok out := by
  intro st eid
  cases hfind : st.rows.find? (fun r => r.id == eid) with
  | some r0 =>
    have hiter : update_learning_progress st eid emptyPatch
        = .error ⟨400, "404: No fields to update"⟩ := by
      rw [update_learning_progress]
      rw [if_neg (by decide : ¬(validPatch emptyPatch = false))]
      rw [hfind]
      rw [if_neg (fun hh : Option.isNone (some r0) = true => Bool.false_ne_true hh)]
      rw [if_pos (by decide : patchIsEmpty emptyPatch = true)]
    refine ⟨fun _ => hiter, fun hnone => ?_, fun out => ?_⟩
    · exfalso
      have hmem := List.mem_of_find?_eq_some hfind
      have hp := List.find?_some hfind
      simp only [beq_iff_eq] at hp
      exact hnone r0 hmem hp
    · rw [hiter]
      intro hh
      cases hh
  | none =>
    have hiter : update_learning_progress st eid emptyPatch
        = .error ⟨400, "404: Entry not found"⟩ := by
      rw [update_learning_progress]
      rw [if_neg (by decide : ¬(validPatch emptyPatch = false))]
      rw [hfind]
      rw [if_pos (by decide : ((none : Option Row).isNone = true))]
    refine ⟨fun hex => ?_, fun _ => hiter, fun out => ?_⟩
    · exfalso
      obtain ⟨r, hr, hid⟩ := hex
      have := List.find?_eq_none.1 hfind r hr
      simp only [beq_iff_eq] at this
      exact this hid
    · rw [hiter]
      intro hh
      cases hh

/-- Witness for `patch_empty_spec` at the one-row store and its id. -/
theorem patch_empty_spec_witness :
    update_learning_progress oneRowStore 7 emptyPatch
      = .error ⟨400, "404: No fields to update"⟩ :=
  (patch_empty_spec oneRowStore 7).1 ⟨oneRow, by decide, by decide⟩

/-- C9: when matches exist, `list_by_topic` returns at most the five most
recent matching records ordered newest-first; with zero matches it fails —
but the surfaced response is HTTP 400 (detail "404: No entries found for
topic: ..."), not the 404 the claim states, because the handler's blanket
`except Exception` re-raises its own HTTPException(404) as 400. -/
theorem by_topic_spec :
    (∀ (st : Store) (t : String) (res : ByTopic),
      get_progress_by_topic st t = .ok res →
        res.latest_entries.length ≤ 5
        ∧ (∀ r ∈ res.latest_entries, r.topic = t)
        ∧ List.Sorted tsDesc res.latest_entries)
    ∧ get_progress_by_topic ⟨[], 1⟩ "Python"
        = .error ⟨400, "404: No entries found for topic: Python"⟩ := by
  refine ⟨?_, by decide⟩
  intro st t res h
  rw [get_progress_by_topic] at h
  by_cases he : ((List.insertionSort tsDesc
      (st.rows.filter fun r => r.topic == t)).take 5).isEmpty = true
  · rw [if_pos he] at h
    cases h
  · rw [if_neg he] at h
    cases h1 : sumVals (((List.insertionSort tsDesc
        (st.rows.filter fun r => r.topic == t)).take 5).map
        fun r => r.hours_spent) with
    | none =>
      rw [h1] at h
      cases h
    | some th =>
      rw [h1] at h
      cases h2 : sumVals (((List.insertionSort tsDesc
          (st.rows.filter fun r => r.topic == t)).take 5).map
          fun r => r.difficulty_level) with
      | none =>
        rw [h2] at h
        cases h
      | some td =>
        rw [h2] at h
        injection h with h
        rw [← h]
        refine ⟨?_, ?_, ?_⟩
        · rw [List.length_take]
          exact min_le_left _ _
        · intro r hr
          have hr2 := List.mem_of_mem_take hr
          rw [List.mem_insertionSort] at hr2
          exact eq_of_beq (List.mem_filter.1 hr2).2
        · exact List.Pairwise.sublist (List.take_sublist 5 _)
            (List.sorted_insertionSort tsDesc _)

/-- Witness for `by_topic_spec` at the one-row store. -/
theorem by_topic_spec_witness :
    okByTopic.latest_entries.length ≤ 5 :=
  (by_topic_spec.1 oneRowStore "Python" okByTopic (by decide)).1

/-- C10: `total_entries` counts every fetched row including rows skipped for
malformed numeric cells, while the per-topic session counts and the hours
total are computed only over the convertible rows; on a store holding one
malformed row the session counts sum to 0, strictly less than
`total_entries` = 1. -/
theorem summary_skipped_rows_spec :
    (∀ rows : List Row,
      (getLearningSummary rows).total_entries = rows.length
      ∧ statSessions (getLearningSummary rows).topic_statistics
          = (convRows rows).length
      ∧ (getLearningSummary rows).total_hours = round2 (gHours (convRows rows)))
    ∧ statSessions (getLearningSummary malformedRows).topic_statistics
        < (getLearningSummary malformedRows).total_entries := by
  refine ⟨?_, by decide⟩
  intro rows
  refine ⟨rfl, ?_, ?_⟩
  · have hperm : List.Perm (sortedStats rows) ((topicsOf rows).map (fun p => mkStat p.1 p.2)) := by
      rw [sortedStats_eq]
      exact List.perm_insertionSort _ _
    have h1 : statSessions (sortedStats rows)
        = statSessions ((topicsOf rows).map fun p => mkStat p.1 p.2) := by
      rw [statSessions, statSessions]
      exact List.Perm.sum_eq (hperm.map _)
    show statSessions (sortedStats rows) = (convRows rows).length
    rw [h1, statSessions, List.map_map]
    show accSessions (topicsOf rows) = (convRows rows).length
    rw [topicsOf, accSessions_foldUpd]
    simp [accSessions]
  · show round2 (summarLoop rows ([], 0)).2 = round2 (gHours (convRows rows))
    rw [totalHours_snd]
end
